import Mathlib

/-!
Verification development for an Advent-of-Code 2022 day 13 solution
(`src/lib.rs`): packets are recursive values (8-bit integer or list of
packets), compared by the puzzle's recursive ordering; the aggregator
sums the 1-based indices of the in-order pairs.

The Rust code signals failure in two distinct ways: `panic!`-style aborts
(`expect`, `unwrap`, out-of-bounds indexing) and `Result` error values.
`PanicOr` keeps them apart: `PanicOr.panic msg` models a panic with its
message, `PanicOr.ret v` models normal return of `v` (where `v` may itself
be an `Except`, modelling a returned `Result`).
-/

/-- Outcome of a Rust computation that may panic. -/
inductive PanicOr (α : Type) where
  | panic (msg : String)
  | ret (a : α)
deriving Repr

/-- Map over the result of a possibly-panicking computation. -/
def PanicOr.map {α β : Type} (f : α → β) : PanicOr α → PanicOr β
  | .panic m => .panic m
  | .ret a => .ret (f a)

/-- The `Packet` enum of `src/lib.rs`: `Int(u8)` (the `u8` value modelled as a
`Nat` in `[0, 256)`, produced by the parser's mod-256 cast) or `List(Vec<Packet>)`. -/
inductive Packet where
  | Int (n : Nat)
  | List (l : List Packet)

/-- A `Vec<Packet>` (plain list of packets; root-level alias so that the
constructor name `Packet.List` does not shadow `List` inside `Packet.*`
signatures). -/
abbrev PacketVec : Type := List Packet

mutual

/-- Structural size of a packet, used as the termination measure of the
comparator (mirrors the recursion structure of `partial_cmp`). -/
def Packet.size : Packet → Nat
  | .Int _ => 1
  | .List l => 1 + Packet.sizeList l

/-- Combined structural size of a list of packets. -/
def Packet.sizeList : PacketVec → Nat
  | [] => 0
  | x :: xs => Packet.size x + Packet.sizeList xs

end

mutual

/-- `Packet::partial_cmp` of `src/lib.rs`. `Int`/`Int` compares the numeric
values; `List`/`List` runs the element loop (`cmp_elems`); the mixed cases
wrap the integer operand in a singleton list and recurse, preserving operand
order, exactly as the source does. -/
def Packet.partial_cmp : Packet → Packet → Option Ordering
  | .Int left, .Int right => some (compare left right)
  | .List left, .List right => Packet.cmp_elems left right
  | .Int left, .List right => Packet.cmp_elems [Packet.Int left] right
  | .List left, .Int right => Packet.cmp_elems left [Packet.Int right]
termination_by a b => 2 * (Packet.size a + Packet.size b)
decreasing_by
· simp [Packet.size, Packet.sizeList]; omega
· simp [Packet.size, Packet.sizeList]; omega
· simp [Packet.size, Packet.sizeList]; omega

/-- The `for (l, r) in zip(left, right)` loop of the `List`/`List` arm: each
iteration consumes the two heads, returning at the first head comparison that
is `Some(Less)` or `Some(Greater)` (`l < r` / `l > r` in the source); when
either side is exhausted the loop ends and the code returns
`left.len().cmp(&right.len())` — comparing the lengths of the remainders
equals comparing the original lengths, because an equal number of elements
was dropped from both sides. -/
def Packet.cmp_elems : PacketVec → PacketVec → Option Ordering
  | l :: ls, r :: rs =>
    if Packet.partial_cmp l r = some Ordering.lt then some Ordering.lt
    else if Packet.partial_cmp l r = some Ordering.gt then some Ordering.gt
    else Packet.cmp_elems ls rs
  | ls, rs => some (compare ls.length rs.length)
termination_by ls rs => 2 * (Packet.sizeList ls + Packet.sizeList rs) + 1
decreasing_by
all_goals
  have hl : 0 < Packet.size l := by cases l <;> simp [Packet.size]
  have hr : 0 < Packet.size r := by cases r <;> simp [Packet.size]
  simp [Packet.sizeList]; omega

end

/-- Rust `PartialOrd::le` (the `<=` of `is_in_order`):
`matches!(partial_cmp, Some(Less) | Some(Equal))`. -/
def Packet.le (a b : Packet) : Bool :=
  match Packet.partial_cmp a b with
  | some Ordering.lt => true
  | some Ordering.eq => true
  | _ => false

/-- The `Pair` struct of `src/lib.rs`. -/
structure Pair where
  left : Packet
  right : Packet

/-- `Pair::is_in_order`: `self.left <= self.right`. -/
def Pair.is_in_order (p : Pair) : Bool :=
  Packet.le p.left p.right

/-- Model of the external serde_json crate's `Value` type, restricted to what
`Packet::from_json_val` distinguishes: `intNum n` is a JSON number stored as
`u64`/`i64` (so `as_i64` can succeed), `floatNum` is a number stored as `f64`
(fraction, exponent, or out of integer range; `as_i64` is `None` on it),
`array` is a JSON array, `other` covers strings, booleans, `null` and objects
(the `_ => panic!` arm of `from_json_val`). -/
inductive Json where
  | intNum (n : Int)
  | floatNum
  | array (elems : List Json)
  | other

/-- A list of JSON values (root-level alias, see `PacketVec`). -/
abbrev JsonVec : Type := List Json

/-- JSON insignificant whitespace. -/
def jsonWs (c : Char) : Bool :=
  c = ' ' || c = '\t' || c = '\n' || c = '\r'

/-- Skip leading JSON whitespace. -/
def skipWs : List Char → List Char
  | [] => []
  | c :: cs => if jsonWs c then skipWs cs else c :: cs

/-- Split a leading run of decimal digits from the rest. -/
def takeDigits : List Char → List Char × List Char
  | [] => ([], [])
  | c :: cs =>
    if c.isDigit then
      let p := takeDigits cs
      (c :: p.1, p.2)
    else ([], c :: cs)

/-- Decimal value of a digit run. -/
def natOfDigits (ds : List Char) : Nat :=
  ds.foldl (fun a c => 10 * a + (c.toNat - 48)) 0

/-- JSON exponent part after the `e`/`E`: optional sign, then at least one digit. -/
def parseExp (cs : List Char) : Option (List Char) :=
  let cs1 := match cs with
    | '+' :: rest => rest
    | '-' :: rest => rest
    | _ => cs
  match takeDigits cs1 with
  | ([], _) => none
  | (_, rest) => some rest

/-- Optional JSON fraction and exponent after the integer part; `true` iff one
was present (the number is then stored as `f64`). -/
def parseFracExp (cs : List Char) : Option (Bool × List Char) :=
  match cs with
  | '.' :: rest =>
    (match takeDigits rest with
     | ([], _) => none
     | (_, rest2) =>
       match rest2 with
       | 'e' :: rest3 => (parseExp rest3).map (fun r => (true, r))
       | 'E' :: rest3 => (parseExp rest3).map (fun r => (true, r))
       | _ => some (true, rest2))
  | 'e' :: rest => (parseExp rest).map (fun r => (true, r))
  | 'E' :: rest => (parseExp rest).map (fun r => (true, r))
  | _ => some (false, cs)

/-- JSON number, serde_json semantics: `-`? then `0` or a nonzero digit run
(leading zeros refused), optional fraction/exponent. An integer token is
stored as `u64` when in `[0, 2^64)`, as `i64` when in `[-2^63, 0)`; otherwise
(and whenever a fraction or exponent is present) it is stored as `f64`. -/
def parseNumber (cs : List Char) : Option (Json × List Char) :=
  let p := match cs with
    | '-' :: rest => (true, rest)
    | _ => (false, cs)
  match takeDigits p.2 with
  | ([], _) => none
  | (ds, rest) =>
    if 1 < ds.length ∧ ds.headD ' ' = '0' then none
    else
      match parseFracExp rest with
      | none => none
      | some (isFloat, rest2) =>
        if isFloat then some (.floatNum, rest2)
        else
          let m : Int := Int.ofNat (natOfDigits ds)
          let v : Int := if p.1 then -m else m
          if (0 ≤ v ∧ v < 2 ^ 64) ∨ (-(2 ^ 63) ≤ v ∧ v < 0) then some (.intNum v, rest2)
          else some (.floatNum, rest2)

/-- Rest of a JSON string after its opening quote (escape validation
simplified: a backslash skips the next character). -/
def parseStringRest : List Char → Option (List Char)
  | [] => none
  | '"' :: cs => some cs
  | '\\' :: [] => none
  | '\\' :: _ :: cs => parseStringRest cs
  | _ :: cs => parseStringRest cs

/-- Require the given characters verbatim (for `true`, `false`, `null`). -/
def expectChars : List Char → List Char → Option (List Char)
  | [], cs => some cs
  | _ :: _, [] => none
  | e :: es, c :: cs => if c = e then expectChars es cs else none

mutual

/-- One JSON value, by recursive descent (fuel bounds the recursion depth;
`jsonFromStr` supplies more than any input can consume). -/
def parseValue : Nat → List Char → Option (Json × List Char)
  | 0, _ => none
  | fuel + 1, cs =>
    match skipWs cs with
    | [] => none
    | '[' :: rest =>
      (match skipWs rest with
       | ']' :: rest2 => some (.array [], rest2)
       | rest2 =>
         match parseElems fuel rest2 with
         | none => none
         | some (vs, rest3) => some (.array vs, rest3))
    | '{' :: rest =>
      (match skipWs rest with
       | '}' :: rest2 => some (.other, rest2)
       | rest2 => (parseMembers fuel rest2).map (fun r => (Json.other, r)))
    | '"' :: rest => (parseStringRest rest).map (fun r => (Json.other, r))
    | 't' :: rest => (expectChars ['r', 'u', 'e'] rest).map (fun r => (Json.other, r))
    | 'f' :: rest => (expectChars ['a', 'l', 's', 'e'] rest).map (fun r => (Json.other, r))
    | 'n' :: rest => (expectChars ['u', 'l', 'l'] rest).map (fun r => (Json.other, r))
    | c :: rest => if c = '-' ∨ c.isDigit then parseNumber (c :: rest) else none

/-- Comma-separated JSON array elements up to the closing `]`. -/
def parseElems : Nat → List Char → Option (List Json × List Char)
  | 0, _ => none
  | fuel + 1, cs =>
    match parseValue fuel cs with
    | none => none
    | some (v, rest) =>
      match skipWs rest with
      | ',' :: rest2 =>
        (match parseElems fuel rest2 with
         | none => none
         | some (vs, rest3) => some (v :: vs, rest3))
      | ']' :: rest2 => some ([v], rest2)
      | _ => none

/-- Comma-separated JSON object members up to the closing brace (values are
discarded: objects are `other` to `from_json_val`). -/
def parseMembers : Nat → List Char → Option (List Char)
  | 0, _ => none
  | fuel + 1, cs =>
    match skipWs cs with
    | '"' :: rest =>
      (match parseStringRest rest with
       | none => none
       | some rest2 =>
         match skipWs rest2 with
         | ':' :: rest3 =>
           (match parseValue fuel rest3 with
            | none => none
            | some (_, rest4) =>
              match skipWs rest4 with
              | ',' :: rest5 => parseMembers fuel rest5
              | '}' :: rest5 => some rest5
              | _ => none)
         | _ => none)
    | _ => none

end

/-- Model of the external `serde_json::from_str::<Value>`: leading/trailing
whitespace allowed, exactly one JSON value, `none` on any syntax error
(including trailing non-whitespace characters). -/
def jsonFromStr (s : String) : Option Json :=
  let cs := s.data
  match parseValue (4 * cs.length + 8) cs with
  | none => none
  | some (v, rest) => if skipWs rest = [] then some v else none

mutual

/-- `Packet::from_json_val` of `src/lib.rs`. `Value::Number(n)` does
`n.as_i64().unwrap() as u8`: `as_i64` is `Some` exactly for integer-stored
numbers that fit `i64` (`unwrap` panics otherwise), and `as u8` truncates to
the low 8 bits — reduction mod 256, with no range validation. `Value::Array`
maps `from_json_val(x).unwrap()` over the elements. Any other value hits the
`_ => panic!` arm. No arm ever returns an `Err` value. -/
def Packet.from_json_val : Json → PanicOr (Except String Packet)
  | .intNum n =>
    if -(2 ^ 63) ≤ n ∧ n < 2 ^ 63 then .ret (.ok (.Int (n % 256).toNat))
    else .panic "called Option::unwrap() on a None value"
  | .floatNum => .panic "called Option::unwrap() on a None value"
  | .array v =>
    (match Packet.from_json_vec v with
     | .panic m => .panic m
     | .ret ps => .ret (.ok (.List ps)))
  | .other => .panic "This should never happen!"

/-- The element map of the `Value::Array` arm:
`v.iter().map(|x| Self::from_json_val(x).unwrap()).collect()` — an `Err`
element would panic at `unwrap`, a panic propagates. -/
def Packet.from_json_vec : JsonVec → PanicOr PacketVec
  | [] => .ret []
  | v :: vs =>
    match Packet.from_json_val v with
    | .panic m => .panic m
    | .ret (.error _) => .panic "called Result::unwrap() on an Err value"
    | .ret (.ok p) =>
      match Packet.from_json_vec vs with
      | .panic m => .panic m
      | .ret ps => .ret (p :: ps)

end

/-- `Packet::from_str` (`impl FromStr for Packet`):
`serde_json::from_str::<Value>(s).expect("Should parse as json")`, then
`from_json_val`. The `expect` panics when the text is not valid JSON, so no
`Err` is ever returned along this path either. -/
def Packet.from_str (s : String) : PanicOr (Except String Packet) :=
  match jsonFromStr s with
  | none => .panic "Should parse as json"
  | some v => Packet.from_json_val v

/-- Rust `input.split("\n\n")` (the blank-line block separator): pieces
between leftmost non-overlapping occurrences of two consecutive newlines. -/
def splitBlocks : List Char → List (List Char)
  | [] => [[]]
  | '\n' :: '\n' :: cs => [] :: splitBlocks cs
  | c :: cs =>
    match splitBlocks cs with
    | [] => [[c]]
    | p :: ps => (c :: p) :: ps

/-- Split on every newline character (the raw split under `str::lines()`). -/
def splitNl : List Char → List (List Char)
  | [] => [[]]
  | '\n' :: cs => [] :: splitNl cs
  | c :: cs =>
    match splitNl cs with
    | [] => [[c]]
    | p :: ps => (c :: p) :: ps

/-- Drop a trailing carriage return (`str::lines()` strips `\r\n` endings). -/
def stripCr (l : List Char) : List Char :=
  match l.getLast? with
  | some '\x0d' => l.dropLast
  | _ => l

/-- Rust `str::lines()`: split on `\n`, dropping the final empty piece left by
a trailing line ending, and dropping a trailing `\r` on each line. -/
def rustLines (s : String) : List String :=
  let parts := splitNl s.data
  let parts := match parts.getLast? with
    | some [] => parts.dropLast
    | _ => parts
  (parts.map stripCr).map String.mk

/-- `Pair::new` of `src/lib.rs`: collect `instring.lines()`, then
`Pair { left: lines[0].parse().unwrap(), right: lines[1].parse().unwrap() }`
evaluated left to right; a missing line panics at the Vec indexing, a parse
failure panics inside `parse` or at `unwrap`. -/
def Pair.new (instring : String) : PanicOr Pair :=
  let lines := rustLines instring
  match lines[0]? with
  | none => .panic "index out of bounds"
  | some l0 =>
    match Packet.from_str l0 with
    | .panic m => .panic m
    | .ret (.error _) => .panic "called Result::unwrap() on an Err value"
    | .ret (.ok left) =>
      match lines[1]? with
      | none => .panic "index out of bounds"
      | some l1 =>
        match Packet.from_str l1 with
        | .panic m => .panic m
        | .ret (.error _) => .panic "called Result::unwrap() on an Err value"
        | .ret (.ok right) => .ret ⟨left, right⟩

/-- `input.split("\n\n").map(Pair::new)`, materialised in iteration order: the
first panicking block aborts the whole run (the downstream iterator chain of
`sum_correct` consumes every block). -/
def pairsOf : List String → PanicOr (List Pair)
  | [] => .ret []
  | b :: bs =>
    match Pair.new b with
    | .panic m => .panic m
    | .ret p =>
      match pairsOf bs with
      | .panic m => .panic m
      | .ret ps => .ret (p :: ps)

/-- `sum_correct` of `src/lib.rs`: split the input on blank lines (`"\n\n"`),
build the pairs, `enumerate()` from 0, keep the in-order pairs, sum `i + 1`. -/
def sum_correct (input : String) : PanicOr Nat :=
  match pairsOf ((splitBlocks input.data).map String.mk) with
  | .panic m => .panic m
  | .ret pairs =>
    .ret ((((pairs.enum).filter (fun ip => ip.2.is_in_order)).map (fun ip => ip.1 + 1)).sum)

/-- Spec-side aggregate, following the spec's words: give each block's pair a
1-based sequential index equal to its position among all blocks (first block
= index 1, regardless of which blocks are in order), and return the sum of
the indices of exactly the in-order pairs. Compared against `sum_correct`. -/
def specIndexSum (pairs : List Pair) : Nat :=
  ((((List.range' 1 pairs.length).zip pairs).filter
      (fun ip => ip.2.is_in_order)).map (fun ip => ip.1)).sum

/-- The 8-pair example input of the `sum_correct` doc-test. -/
def exampleInput : String :=
  "[1,1,3,1,1]\n[1,1,5,1,1]\n\n[[1],[2,3,4]]\n[[1],4]\n\n[9]\n[[8,7,6]]\n\n[[4,4],4,4]\n[[4,4],4,4,4]\n\n[7,7,7,7]\n[7,7,7]\n\n[]\n[3]\n\n[[[]]]\n[[]]\n\n[1,[2,[3,[4,[5,6,7]]]],8,9]\n[1,[2,[3,[4,[5,6,0]]]],8,9]"

/-! ## Helper lemmas -/

/-- The element loop always produces `Some`: every branch returns a value or
recurses on the tails. -/
theorem Packet.cmp_elems_total (xs ys : PacketVec) :
    ∃ o : Ordering, Packet.cmp_elems xs ys = some o := by
  induction xs generalizing ys with
  | nil => exact ⟨compare 0 ys.length, by simp [Packet.cmp_elems]⟩
  | cons x xs ih =>
    cases ys with
    | nil => exact ⟨compare (xs.length + 1) 0, by simp [Packet.cmp_elems]⟩
    | cons y ys =>
      simp only [Packet.cmp_elems]
      split_ifs with h1 h2
      · exact ⟨_, rfl⟩
      · exact ⟨_, rfl⟩
      · exact ih ys

/-- `partial_cmp` always produces `Some`. -/
theorem Packet.partial_cmp_total : ∀ a b : Packet, ∃ o : Ordering, Packet.partial_cmp a b = some o
  | .Int l, .Int r => ⟨compare l r, by simp [Packet.partial_cmp]⟩
  | .List l, .List r => by simpa [Packet.partial_cmp] using Packet.cmp_elems_total l r
  | .Int l, .List r => by simpa [Packet.partial_cmp] using Packet.cmp_elems_total [Packet.Int l] r
  | .List l, .Int r => by simpa [Packet.partial_cmp] using Packet.cmp_elems_total l [Packet.Int r]

mutual

/-- Reflexivity: every packet compares `Equal` to itself. -/
theorem Packet.partial_cmp_refl : ∀ a : Packet, Packet.partial_cmp a a = some Ordering.eq
  | .Int n => by simp [Packet.partial_cmp, Nat.compare_eq_eq]
  | .List l => by
    have h := Packet.cmp_elems_refl l
    simp [Packet.partial_cmp, h]
termination_by a => 2 * Packet.size a
decreasing_by
simp [Packet.size]; omega

/-- Reflexivity of the element loop. -/
theorem Packet.cmp_elems_refl : ∀ xs : PacketVec, Packet.cmp_elems xs xs = some Ordering.eq
  | [] => by simp [Packet.cmp_elems, Nat.compare_eq_eq]
  | x :: xs => by
    have hh := Packet.partial_cmp_refl x
    have ht := Packet.cmp_elems_refl xs
    simp [Packet.cmp_elems, hh, ht]
termination_by xs => 2 * Packet.sizeList xs + 1
decreasing_by
all_goals
  have hx : 0 < Packet.size x := by cases x <;> simp [Packet.size]
  simp [Packet.sizeList]; omega

end

mutual

/-- Antisymmetry (mirror property): swapping the operands swaps the result. -/
theorem Packet.partial_cmp_swap : ∀ a b : Packet,
    Packet.partial_cmp b a = (Packet.partial_cmp a b).map Ordering.swap
  | .Int l, .Int r => by
    simp only [Packet.partial_cmp, Option.map]
    exact congrArg some (Nat.compare_swap l r).symm
  | .List l, .List r => by
    have h := Packet.cmp_elems_swap l r
    simp [Packet.partial_cmp, h]
  | .Int l, .List r => by
    have h := Packet.cmp_elems_swap [Packet.Int l] r
    simp [Packet.partial_cmp, h]
  | .List l, .Int r => by
    have h := Packet.cmp_elems_swap l [Packet.Int r]
    simp [Packet.partial_cmp, h]
termination_by a b => 2 * (Packet.size a + Packet.size b)
decreasing_by
all_goals simp [Packet.size, Packet.sizeList]; omega

/-- Mirror property of the element loop. -/
theorem Packet.cmp_elems_swap : ∀ xs ys : PacketVec,
    Packet.cmp_elems ys xs = (Packet.cmp_elems xs ys).map Ordering.swap
  | [], [] => by simp [Packet.cmp_elems, Nat.compare_def_lt, Ordering.swap]
  | [], y :: ys => by
    simp [Packet.cmp_elems, Nat.compare_def_lt, Ordering.swap]
  | x :: xs, [] => by
    simp [Packet.cmp_elems, Nat.compare_def_lt, Ordering.swap]
  | x :: xs, y :: ys => by
    have hh := Packet.partial_cmp_swap x y
    have ht := Packet.cmp_elems_swap xs ys
    rcases Packet.partial_cmp_total x y with ⟨o, ho⟩
    cases o <;> simp [Packet.cmp_elems, hh, ho, ht, Ordering.swap]
termination_by xs ys => 2 * (Packet.sizeList xs + Packet.sizeList ys) + 1
decreasing_by
all_goals
  have hx : 0 < Packet.size x := by cases x <;> simp [Packet.size]
  have hy : 0 < Packet.size y := by cases y <;> simp [Packet.size]
  simp [Packet.sizeList]; omega

end

/-- A head comparison that is not `Equal` is the loop's result (short-circuit). -/
theorem Packet.cmp_elems_head (x y : Packet) (xs ys : PacketVec)
    (h : Packet.partial_cmp x y ≠ some Ordering.eq) :
    Packet.cmp_elems (x :: xs) (y :: ys) = Packet.partial_cmp x y := by
  rcases Packet.partial_cmp_total x y with ⟨o, ho⟩
  cases o with
  | lt => simp [Packet.cmp_elems, ho]
  | eq => exact absurd ho h
  | gt => simp [Packet.cmp_elems, ho]

/-- An `Equal` head comparison defers to the rest of the loop. -/
theorem Packet.cmp_elems_head_eq (x y : Packet) (xs ys : PacketVec)
    (h : Packet.partial_cmp x y = some Ordering.eq) :
    Packet.cmp_elems (x :: xs) (y :: ys) = Packet.cmp_elems xs ys := by
  simp [Packet.cmp_elems, h]

/-- First difference: behind pairwise-`Equal` prefixes of equal length, the
first non-`Equal` element comparison is returned unchanged. -/
theorem Packet.cmp_elems_first_diff (ps qs : PacketVec)
    (hpq : List.Forall₂ (fun a b => Packet.partial_cmp a b = some Ordering.eq) ps qs)
    (x y : Packet) (xs ys : PacketVec)
    (h : Packet.partial_cmp x y ≠ some Ordering.eq) :
    Packet.cmp_elems (ps ++ x :: xs) (qs ++ y :: ys) = Packet.partial_cmp x y := by
  induction hpq with
  | nil => simpa using Packet.cmp_elems_head x y xs ys h
  | cons ha _ ih =>
    simp only [List.cons_append]
    rw [Packet.cmp_elems_head_eq _ _ _ _ ha]
    exact ih

/-- Comparing successors of lengths is comparing the lengths. -/
theorem nat_compare_succ (m n : Nat) : compare (m + 1) (n + 1) = compare m n := by
  simp [Nat.compare_def_lt, Nat.add_lt_add_iff_right]

/-- When every compared position is `Equal`, the loop falls through to the
length comparison. -/
theorem Packet.cmp_elems_all_eq (xs : PacketVec) : ∀ ys : PacketVec,
    (∀ p ∈ xs.zip ys, Packet.partial_cmp p.1 p.2 = some Ordering.eq) →
    Packet.cmp_elems xs ys = some (compare xs.length ys.length) := by
  induction xs with
  | nil => intro ys _; simp [Packet.cmp_elems]
  | cons x xs ih =>
    intro ys h
    cases ys with
    | nil => simp [Packet.cmp_elems]
    | cons y ys =>
      have hxy : Packet.partial_cmp x y = some Ordering.eq := h (x, y) (by simp)
      have ht : ∀ p ∈ xs.zip ys, Packet.partial_cmp p.1 p.2 = some Ordering.eq :=
        fun p hp => h p (by simp [hp])
      rw [Packet.cmp_elems_head_eq _ _ _ _ hxy, ih ys ht]
      simp [nat_compare_succ]

/-- The enumerate-then-add-one sum of `sum_correct` equals the 1-based-index
sum of the spec, at any starting offset. -/
theorem sum_enumFrom_filter (pairs : List Pair) : ∀ k : Nat,
    (((List.enumFrom k pairs).filter (fun ip => ip.2.is_in_order)).map
        (fun ip => ip.1 + 1)).sum
      = ((((List.range' (k + 1) pairs.length).zip pairs).filter
          (fun ip => ip.2.is_in_order)).map (fun ip => ip.1)).sum := by
  induction pairs with
  | nil => intro k; simp
  | cons p ps ih =>
    intro k
    simp only [List.enumFrom, List.length_cons, List.range'_succ, List.zip_cons_cons,
      List.filter_cons]
    by_cases h : p.is_in_order <;> simp [h, ih (k + 1)]

/-- If some block's pair construction fails, the collected pair list is never
returned (the first failure's panic propagates). -/
theorem pairsOf_no_ret (blocks : List String)
    (h : ∃ b ∈ blocks, ∀ pr : Pair, Pair.new b ≠ PanicOr.ret pr) :
    ∀ ps : List Pair, pairsOf blocks ≠ PanicOr.ret ps := by
  induction blocks with
  | nil =>
    rcases h with ⟨b, hb, _⟩
    simp at hb
  | cons b bs ih =>
    intro ps hcontra
    rcases h with ⟨b', hb', hfail⟩
    rcases List.mem_cons.mp hb' with rfl | hb'
    · cases hnew : Pair.new b' with
      | panic m => simp [pairsOf, hnew] at hcontra
      | ret pr => exact hfail pr hnew
    · cases hnew : Pair.new b with
      | panic m => simp [pairsOf, hnew] at hcontra
      | ret pr =>
        cases hps : pairsOf bs with
        | panic m => simp [pairsOf, hnew, hps] at hcontra
        | ret ps' => exact ih ⟨b', hb', hfail⟩ ps' hps

/-! ## Claims -/

/-- C1: for every input text whose blank-line-separated blocks each parse into
a pair of packets, `sum_correct` returns the sum of the 1-based indices
(first block = index 1, sequentially, regardless of which blocks are in
order) of exactly those blocks whose pair is in order. -/
theorem claim_C1 (input : String) (pairs : List Pair)
    (h : pairsOf ((splitBlocks input.data).map String.mk) = PanicOr.ret pairs) :
    sum_correct input = PanicOr.ret (specIndexSum pairs) := by
  have hs := sum_enumFrom_filter pairs 0
  unfold sum_correct
  rw [h]
  simpa [List.enum, specIndexSum] using hs

/-- Witness for C1 at a concrete two-block input: the first pair is in order,
the second is not, so the sum of 1-based indices is 1. -/
theorem claim_C1_witness : sum_correct "[1]\n[2]\n\n[2]\n[1]" = PanicOr.ret 1 := by
  have h := claim_C1 "[1]\n[2]\n\n[2]\n[1]"
    [⟨Packet.List [Packet.Int 1], Packet.List [Packet.Int 2]⟩,
     ⟨Packet.List [Packet.Int 2], Packet.List [Packet.Int 1]⟩] rfl
  rw [h]
  simp [specIndexSum, List.range', Pair.is_in_order, Packet.le, Packet.partial_cmp,
    Packet.cmp_elems, Nat.compare_def_lt]

/-- C2: list-vs-list comparison examines elements pairwise from index 0
upward and returns the first non-`Equal` element comparison immediately; when
all compared positions are `Equal`, the length decides: shorter is `Less`,
equal lengths are `Equal`, longer is `Greater` (in particular a strict
element-wise prefix compares `Less`). -/
theorem claim_C2 :
    (∀ (ps qs : PacketVec) (x y : Packet) (xs ys : PacketVec),
      List.Forall₂ (fun a b => Packet.partial_cmp a b = some Ordering.eq) ps qs →
      Packet.partial_cmp x y ≠ some Ordering.eq →
      Packet.partial_cmp (.List (ps ++ x :: xs)) (.List (qs ++ y :: ys))
        = Packet.partial_cmp x y) ∧
    (∀ xs ys : PacketVec,
      (∀ p ∈ xs.zip ys, Packet.partial_cmp p.1 p.2 = some Ordering.eq) →
      xs.length < ys.length →
      Packet.partial_cmp (.List xs) (.List ys) = some Ordering.lt) ∧
    (∀ xs ys : PacketVec,
      (∀ p ∈ xs.zip ys, Packet.partial_cmp p.1 p.2 = some Ordering.eq) →
      xs.length = ys.length →
      Packet.partial_cmp (.List xs) (.List ys) = some Ordering.eq) ∧
    (∀ xs ys : PacketVec,
      (∀ p ∈ xs.zip ys, Packet.partial_cmp p.1 p.2 = some Ordering.eq) →
      ys.length < xs.length →
      Packet.partial_cmp (.List xs) (.List ys) = some Ordering.gt) := by
  refine ⟨?_, ?_, ?_, ?_⟩
  · intro ps qs x y xs ys hpq h
    have hc := Packet.cmp_elems_first_diff ps qs hpq x y xs ys h
    simpa [Packet.partial_cmp] using hc
  · intro xs ys h hlen
    have hc := Packet.cmp_elems_all_eq xs ys h
    simp [Packet.partial_cmp, hc, Nat.compare_eq_lt.mpr hlen]
  · intro xs ys h hlen
    have hc := Packet.cmp_elems_all_eq xs ys h
    simp [Packet.partial_cmp, hc, Nat.compare_eq_eq.mpr hlen]
  · intro xs ys h hlen
    have hc := Packet.cmp_elems_all_eq xs ys h
    simp [Packet.partial_cmp, hc, Nat.compare_eq_gt.mpr hlen]

/-- Witness for C2: one instantiation of each conjunct at concrete lists. -/
theorem claim_C2_witness :
    Packet.partial_cmp (.List [.Int 1, .Int 2]) (.List [.Int 1, .Int 3, .Int 9])
      = Packet.partial_cmp (.Int 2) (.Int 3) ∧
    Packet.partial_cmp (.List [.Int 5]) (.List [.Int 5, .Int 0]) = some Ordering.lt ∧
    Packet.partial_cmp (.List [.Int 5]) (.List [.Int 5]) = some Ordering.eq ∧
    Packet.partial_cmp (.List [.Int 5, .Int 0]) (.List [.Int 5]) = some Ordering.gt := by
  refine ⟨?_, ?_, ?_, ?_⟩
  · exact claim_C2.1 [Packet.Int 1] [Packet.Int 1] (Packet.Int 2) (Packet.Int 3) [] [Packet.Int 9]
      (List.Forall₂.cons (by simp [Packet.partial_cmp, Nat.compare_def_lt]) List.Forall₂.nil)
      (by simp [Packet.partial_cmp, Nat.compare_def_lt])
  · exact claim_C2.2.1 [Packet.Int 5] [Packet.Int 5, Packet.Int 0]
      (by simp [Packet.partial_cmp, Nat.compare_def_lt]) (by decide)
  · exact claim_C2.2.2.1 [Packet.Int 5] [Packet.Int 5]
      (by simp [Packet.partial_cmp, Nat.compare_def_lt]) rfl
  · exact claim_C2.2.2.2 [Packet.Int 5, Packet.Int 0] [Packet.Int 5]
      (by simp [Packet.partial_cmp, Nat.compare_def_lt]) (by decide)

/-- C3: the int-vs-list coercion law — comparing `Int(a)` with `List(L)`
equals comparing `List([Int(a)])` with `List(L)`, and symmetrically with the
operand order preserved. -/
theorem claim_C3 (a : Nat) (L : PacketVec) :
    Packet.partial_cmp (.Int a) (.List L) = Packet.partial_cmp (.List [.Int a]) (.List L) ∧
    Packet.partial_cmp (.List L) (.Int a) = Packet.partial_cmp (.List L) (.List [.Int a]) := by
  constructor <;> simp [Packet.partial_cmp]

/-- C4: integer-vs-integer comparison matches the numeric ordering. -/
theorem claim_C4 (a b : Nat) :
    (a < b → Packet.partial_cmp (.Int a) (.Int b) = some Ordering.lt) ∧
    (a = b → Packet.partial_cmp (.Int a) (.Int b) = some Ordering.eq) ∧
    (b < a → Packet.partial_cmp (.Int a) (.Int b) = some Ordering.gt) := by
  refine ⟨fun h => ?_, fun h => ?_, fun h => ?_⟩
  · simp [Packet.partial_cmp, Nat.compare_eq_lt.mpr h]
  · simp [Packet.partial_cmp, Nat.compare_eq_eq.mpr h]
  · simp [Packet.partial_cmp, Nat.compare_eq_gt.mpr h]

/-- Witness for C4 at 1 < 2, 2 = 2, 3 > 2. -/
theorem claim_C4_witness :
    Packet.partial_cmp (.Int 1) (.Int 2) = some Ordering.lt ∧
    Packet.partial_cmp (.Int 2) (.Int 2) = some Ordering.eq ∧
    Packet.partial_cmp (.Int 3) (.Int 2) = some Ordering.gt :=
  ⟨(claim_C4 1 2).1 (by decide), (claim_C4 2 2).2.1 rfl, (claim_C4 3 2).2.2 (by decide)⟩

/-- C5: `is_in_order` returns true iff the comparison of left and right is
`Less` or `Equal`. -/
theorem claim_C5 (p : Pair) :
    p.is_in_order = true ↔
      (Packet.partial_cmp p.left p.right = some Ordering.lt ∨
       Packet.partial_cmp p.left p.right = some Ordering.eq) := by
  unfold Pair.is_in_order Packet.le
  rcases h : Packet.partial_cmp p.left p.right with _ | o
  · simp [h]
  · cases o <;> simp [h]

/-- C6: the comparator is reflexive (`compare(x, x) = Equal`) and
antisymmetric (swapping operands mirrors the result: `Less` exchanges with
`Greater`, `Equal` stays `Equal`). -/
theorem claim_C6 :
    (∀ x : Packet, Packet.partial_cmp x x = some Ordering.eq) ∧
    (∀ a b : Packet, Packet.partial_cmp b a = (Packet.partial_cmp a b).map Ordering.swap) :=
  ⟨Packet.partial_cmp_refl, Packet.partial_cmp_swap⟩

/-- C8: comparison is total on packets — `partial_cmp` never returns `None`. -/
theorem claim_C8 (a b : Packet) : ∃ o : Ordering, Packet.partial_cmp a b = some o :=
  Packet.partial_cmp_total a b

/-- C9: the parser converts a numeric token with `n.as_i64().unwrap() as u8`:
any integer JSON number in `i64` range is reduced mod 256 with no range
validation (`[300]` parses to `Int(44)`), although the data model describes
`Int` as an 8-bit value in 0–255. -/
theorem claim_C9 :
    (∀ n : Int, -(2 ^ 63) ≤ n → n < 2 ^ 63 →
      Packet.from_json_val (Json.intNum n)
        = PanicOr.ret (Except.ok (Packet.Int (n % 256).toNat))) ∧
    Packet.from_str "[300]" = PanicOr.ret (Except.ok (Packet.List [Packet.Int 44])) := by
  constructor
  · intro n h1 h2
    simp only [Packet.from_json_val]
    rw [if_pos ⟨h1, h2⟩]
  · rfl

/-- Witness for C9: 300 is out of the 0–255 range and is truncated to 44. -/
theorem claim_C9_witness :
    Packet.from_json_val (Json.intNum 300) = PanicOr.ret (Except.ok (Packet.Int 44)) := by
  have h := claim_C9.1 300 (by decide) (by decide)
  have e : ((300 : Int) % 256).toNat = 44 := by decide
  rw [h, e]

/-- C7 counterexample: on the malformed line `[` (unbalanced bracket) the
parse operation does not produce a `ParseError` value — no `Err` is ever
returned; instead the code panics at
`serde_json::from_str(s).expect("Should parse as json")`. -/
theorem claim_C7_counterexample :
    Packet.from_str "[" = PanicOr.panic "Should parse as json" ∧
    ¬ ∃ e : String, Packet.from_str "[" = PanicOr.ret (Except.error e) := by
  refine ⟨rfl, ?_⟩
  rintro ⟨e, he⟩
  exact PanicOr.noConfusion
    (show PanicOr.panic "Should parse as json" = PanicOr.ret (Except.error e) from he)

/-- C7 (amended): a line the JSON parser rejects makes parsing panic (abort)
rather than return a `ParseError` value; a block whose first or second line
does not parse to a packet never yields a pair; and an input containing such
a block never yields a sum — the malformed line is not silently skipped and
there is no partial-success mode. -/
theorem claim_C7_amended :
    (∀ s : String, jsonFromStr s = none →
      Packet.from_str s = PanicOr.panic "Should parse as json") ∧
    (∀ (b l0 l1 : String) (rest : List String),
      rustLines b = l0 :: l1 :: rest →
      ((∀ pk : Packet, Packet.from_str l0 ≠ PanicOr.ret (Except.ok pk)) ∨
       (∀ pk : Packet, Packet.from_str l1 ≠ PanicOr.ret (Except.ok pk))) →
      ∀ pr : Pair, Pair.new b ≠ PanicOr.ret pr) ∧
    (∀ input : String,
      (∃ b ∈ (splitBlocks input.data).map String.mk,
        ∀ pr : Pair, Pair.new b ≠ PanicOr.ret pr) →
      ∀ n : Nat, sum_correct input ≠ PanicOr.ret n) := by
  refine ⟨?_, ?_, ?_⟩
  · intro s h
    simp [Packet.from_str, h]
  · intro b l0 l1 rest hl hfail pr hcontra
    simp only [Pair.new, hl, List.getElem?_cons_zero, List.getElem?_cons_succ] at hcontra
    cases h0 : Packet.from_str l0 with
    | panic m => simp [h0] at hcontra
    | ret r0 =>
      cases r0 with
      | error e => simp [h0] at hcontra
      | ok pk0 =>
        cases h1 : Packet.from_str l1 with
        | panic m => simp [h0, h1] at hcontra
        | ret r1 =>
          cases r1 with
          | error e => simp [h0, h1] at hcontra
          | ok pk1 =>
            rcases hfail with hf | hf
            · exact hf pk0 h0
            · exact hf pk1 h1
  · intro input hex n hcontra
    have hno := pairsOf_no_ret _ hex
    unfold sum_correct at hcontra
    cases hps : pairsOf ((splitBlocks input.data).map String.mk) with
    | panic m => simp [hps] at hcontra
    | ret ps => exact hno ps hps

/-- Witness for C7 (amended) at the malformed input `[`: parsing panics with
the `expect` message and `sum_correct` on that input never returns a sum. -/
theorem claim_C7_witness :
    Packet.from_str "[" = PanicOr.panic "Should parse as json" ∧
    ∀ n : Nat, sum_correct "[" ≠ PanicOr.ret n := by
  constructor
  · exact claim_C7_amended.1 "[" rfl
  · exact claim_C7_amended.2.2 "["
      ⟨"[", by decide, fun pr h => PanicOr.noConfusion
        (show PanicOr.panic "Should parse as json" = PanicOr.ret pr from h)⟩

/-- C10: end-to-end behavior on the known 8-pair example input:
`sum_correct` returns 13, `[]` vs `[3]` is in order, `[[[]]]` vs `[[]]` is
not. -/
theorem claim_C10 :
    sum_correct exampleInput = PanicOr.ret 13 ∧
    (Pair.new "[]\n[3]").map Pair.is_in_order = PanicOr.ret true ∧
    (Pair.new "[[[]]]\n[[]]").map Pair.is_in_order = PanicOr.ret false := by
  refine ⟨?_, ?_, ?_⟩
  · have h : pairsOf ((splitBlocks exampleInput.data).map String.mk) = PanicOr.ret
        [⟨.List [.Int 1, .Int 1, .Int 3, .Int 1, .Int 1],
          .List [.Int 1, .Int 1, .Int 5, .Int 1, .Int 1]⟩,
         ⟨.List [.List [.Int 1], .List [.Int 2, .Int 3, .Int 4]],
          .List [.List [.Int 1], .Int 4]⟩,
         ⟨.List [.Int 9],
          .List [.List [.Int 8, .Int 7, .Int 6]]⟩,
         ⟨.List [.List [.Int 4, .Int 4], .Int 4, .Int 4],
          .List [.List [.Int 4, .Int 4], .Int 4, .Int 4, .Int 4]⟩,
         ⟨.List [.Int 7, .Int 7, .Int 7, .Int 7],
          .List [.Int 7, .Int 7, .Int 7]⟩,
         ⟨.List [],
          .List [.Int 3]⟩,
         ⟨.List [.List [.List []]],
          .List [.List []]⟩,
         ⟨.List [.Int 1, .List [.Int 2, .List [.Int 3, .List [.Int 4,
            .List [.Int 5, .Int 6, .Int 7]]]], .Int 8, .Int 9],
          .List [.Int 1, .List [.Int 2, .List [.Int 3, .List [.Int 4,
            .List [.Int 5, .Int 6, .Int 0]]]], .Int 8, .Int 9]⟩] := rfl
    unfold sum_correct
    rw [h]
    simp [List.enum, List.enumFrom, List.filter_cons, Pair.is_in_order, Packet.le,
      Packet.partial_cmp, Packet.cmp_elems, Nat.compare_def_lt]
  · have h : Pair.new "[]\n[3]" = PanicOr.ret ⟨.List [], .List [.Int 3]⟩ := rfl
    simp [h, PanicOr.map, Pair.is_in_order, Packet.le, Packet.partial_cmp,
      Packet.cmp_elems, Nat.compare_def_lt]
  · have h : Pair.new "[[[]]]\n[[]]" = PanicOr.ret
        ⟨.List [.List [.List []]], .List [.List []]⟩ := rfl
    simp [h, PanicOr.map, Pair.is_in_order, Packet.le, Packet.partial_cmp,
      Packet.cmp_elems, Nat.compare_def_lt]
